import Mathlib

/-!
Verification of the Zlang interpreter (`interpreter.py`): a tokenizer,
an operator-precedence parser and a tree-walking evaluator for a small
arithmetic language with let-style assignment.

The Python source is embedded shallowly:
* Python `int` is arbitrary precision, so values are `Int`;
* Python exceptions become `Except` error values, with one constructor
  per distinct exception class the source can raise;
* the mutable dictionary environment becomes an association list whose
  caller-visible state is threaded through evaluation explicitly, so that
  (absence of) mutation of the caller's dictionary is visible;
* the recursive functions `lexer` and `parser` are embedded with an
  explicit fuel argument (structural recursion on fuel keeps every
  definition kernel-computable); the fuel supplied by the wrappers is
  always sufficient, and fuel-irrelevance is proved where theorems
  need it.

Definitions come first, then the theorems.
-/

/-! ## Character classes (ASCII, via code points as Python compares strings) -/

/-- Python `"0" <= c <= "9"`. -/
def isDigitC (c : Char) : Bool := '0'.toNat ≤ c.toNat && c.toNat ≤ '9'.toNat

/-- Python `c.isalpha()` restricted to ASCII (all inputs in the claims are ASCII). -/
def isAlphaC (c : Char) : Bool :=
  ('a'.toNat ≤ c.toNat && c.toNat ≤ 'z'.toNat) ||
  ('A'.toNat ≤ c.toNat && c.toNat ≤ 'Z'.toNat)

/-- Python `c.isalnum() or c == "_"` restricted to ASCII: continuation of an identifier. -/
def isIdentC (c : Char) : Bool := isAlphaC c || isDigitC c || c = '_'

/-- Python `c in "+-*/="`. -/
def isOpC (c : Char) : Bool := c = '+' || c = '-' || c = '*' || c = '/' || c = '='

/-- Python `c in " \t\n\r"`. -/
def isWsC (c : Char) : Bool := c = ' ' || c = '\t' || c = '\n' || c = '\r'

/-- The maximal run of digits at the head of the list, and the remainder
(the `while len(code) > i and "0" <= code[i] <= "9"` loop of the lexer). -/
def spanDigits : List Char → List Char × List Char
  | [] => ([], [])
  | c :: cs =>
    if isDigitC c then
      let p := spanDigits cs
      (c :: p.1, p.2)
    else ([], c :: cs)

/-- The maximal run of identifier characters at the head of the list, and the
remainder (the identifier loop of the lexer). -/
def spanIdent : List Char → List Char × List Char
  | [] => ([], [])
  | c :: cs =>
    if isIdentC c then
      let p := spanIdent cs
      (c :: p.1, p.2)
    else ([], c :: cs)

/-- Python `int(...)` on a string of digits. -/
def natOfDigits (ds : List Char) : Nat :=
  ds.foldl (fun n c => 10 * n + (c.toNat - '0'.toNat)) 0

/-! ## Tokens (the dataclasses `VarToken`, `IntToken`, `OpToken`, `ParToken`, `EndToken`) -/

inductive Token where
  | VarToken (name : String)
  | IntToken (val : Int)
  | OpToken (val : Char)
  | ParToken ( is_left : Bool)
  | EndToken
deriving DecidableEq, Repr

/-- The `match prev` at the top of `lexer`: a `-` is taken as a sign (not a
binary operator) exactly when the previous token is absent (start of input),
an operator, an open parenthesis, or a terminator. -/
def signElig : Option Token → Bool
  | none => true
  | some (Token.OpToken _) => true
  | some (Token.ParToken true) => true
  | some Token.EndToken => true
  | _ => false

/-! ## The lexer

`lexer(code, prev)` returns the token list in *reverse* source order (it
recurses first and appends afterwards); the host reverses it.  Errors:
`SyntaxError(f"Unknown token {c}")` for an unknown character, and the
`IndexError` Python raises when a consumed sign `-` is the last character. -/

inductive LexErr where
  | unknownTok (c : Char)
  | indexError
  | fuel
deriving DecidableEq, Repr

/-- One dispatch step of `lexer` after the unary-minus check: `c :: cs` is the
remaining code, ` isSub` is Python's `is_subtraction`, `recur` is the recursive
call. Branches in source order: digits, identifier, operator, parenthesis,
whitespace, terminator, unknown. -/
def lexDispatch (recur : List Char → Option Token → Except LexErr (List Token))
    (c : Char) (cs : List Char) (prev : Option Token) ( isSub : Bool) :
    Except LexErr (List Token) :=
  if isDigitC c then
    let p := spanDigits cs
    let n : Nat := natOfDigits (c :: p.1)
    let tok := Token.IntToken (if isSub then (n : Int) else -(n : Int))
    match recur p.2 (some tok) with
    | .error e => .error e
    | .ok ts => .ok (ts ++ [tok])
  else if isAlphaC c || c = '_' then
    let p := spanIdent cs
    let tok := Token.VarToken (String.mk (c :: p.1))
    match recur p.2 (some tok) with
    | .error e => .error e
    | .ok ts =>
      let ts := ts ++ [tok]
      .ok (if isSub then ts else ts ++ [Token.OpToken '*', Token.IntToken (-1)])
  else if isOpC c then
    match recur cs (some (Token.OpToken c)) with
    | .error e => .error e
    | .ok ts => .ok (ts ++ [Token.OpToken c])
  else if c = '(' || c = ')' then
    let b := c = '('
    match recur cs (some (Token.ParToken b)) with
    | .error e => .error e
    | .ok ts =>
      let ts := ts ++ [Token.ParToken b]
      .ok (if isSub then ts else ts ++ [Token.OpToken '*', Token.IntToken (-1)])
  else if isWsC c then
    recur cs prev
  else if c = ';' then
    match recur cs (some Token.EndToken) with
    | .error e => .error e
    | .ok ts => .ok (ts ++ [Token.EndToken])
  else .error (.unknownTok c)

/-- One call of Python `lexer(code, prev)` with `recur` standing for the
recursive calls: empty check, then the unary-minus consumption, then dispatch. -/
def lexStep (recur : List Char → Option Token → Except LexErr (List Token)) :
    List Char → Option Token → Except LexErr (List Token)
  | [], _ => .ok []
  | c :: cs, prev =>
    if c = '-' && signElig prev then
      match cs with
      | [] => .error .indexError
      | c' :: cs' => lexDispatch recur c' cs' prev false
    else lexDispatch recur c cs prev true

/-- Fuel-indexed lexer. -/
def lexF : Nat → List Char → Option Token → Except LexErr (List Token)
  | 0, _, _ => .error .fuel
  | f + 1, code, prev => lexStep (lexF f) code prev

/-- Python `lexer(code, prev)`.  Fuel `code.length + 1` always suffices:
every recursive call is on a strictly shorter list. -/
def lexer (code : List Char) (prev : Option Token) : Except LexErr (List Token) :=
  lexF (code.length + 1) code prev

/-- The tokenizer as the host uses it: `lexer(user_code)[::-1]`, i.e. the
lexer's reversed output put back into source order. -/
def tokenize (code : List Char) : Except LexErr (List Token) :=
  (lexer code none).map List.reverse

/-! ## The AST (`Exp`) and the parser -/

inductive Exp where
  | Int (val : Int)
  | Var (name : String)
  | Assign (name : String) (val : Exp) (body : Exp)
  | Sum (left right : Exp)
  | Difference (left right : Exp)
  | Negation (exp : Exp)
  | Product (left right : Exp)
  | Quotient (left right : Exp)
deriving DecidableEq, Repr

/-- Parser failures: the three `SyntaxError`s of the source, plus the
`IndexError` of popping/indexing an empty list, the `ValueError` of
`op_lookup`'s default factory and the `KeyError` of `op_precedence`. -/
inductive PErr where
  | unbalanced          -- SyntaxError "Unbalanced parentheses"
  | unexpectedAssign    -- SyntaxError "Unexpected assignment"
  | genericSyn          -- SyntaxError "Syntax Error"
  | indexError          -- IndexError (pop / index on an empty list)
  | valueError          -- ValueError "Unknown operator"
  | keyError            -- KeyError (op_precedence)
  | fuel
deriving DecidableEq, Repr

/-- `_op_lookup` (with the defaultdict's `unknown_op` represented by `none`). -/
def op_lookup : Char → Option (Exp → Exp → Exp)
  | '+' => some .Sum
  | '-' => some .Difference
  | '*' => some .Product
  | '/' => some .Quotient
  | _ => none

/-- `op_precedence` (a `KeyError` on any other key is represented by `none`). -/
def op_precedence : Char → Option Nat
  | '+' => some 1
  | '-' => some 1
  | '*' => some 2
  | '/' => some 2
  | _ => none

/-- `handle_top`: pop the top operator, pop two operands, combine, push the
result back, then push the optional new operator.  Stacks grow at the head
(Python appends/pops at the right end). -/
def handle_top (op : Option Char) (ops : List Char) (exps : List Exp) :
    Except PErr (List Char × List Exp) :=
  match ops with
  | [] => .error .indexError
  | top :: ops' =>
    match exps with
    | rhs :: lhs :: es =>
      match op_lookup top with
      | none => .error .valueError
      | some f =>
        let exps' := f lhs rhs :: es
        match op with
        | none => .ok (ops', exps')
        | some o => .ok (o :: ops', exps')
    | _ => .error .indexError

/-- `while op_stk: handle_top()` — drain every pending operator
(each iteration pops one operator and two operands, exactly `handle_top` with
no new operator). -/
def drainAll : List Char → List Exp → Except PErr (List Exp)
  | [], exps => .ok exps
  | top :: ops, rhs :: lhs :: es =>
    match op_lookup top with
    | none => .error .valueError
    | some f => drainAll ops (f lhs rhs :: es)
  | _ :: _, _ => .error .indexError

/-- Python `exp_stk[0]`: the bottom of the stack (the head of the Python list),
i.e. the last element of our head-grown list; `IndexError` when empty. -/
def stkBottom (exps : List Exp) : Except PErr Exp :=
  match exps.getLast? with
  | some e => .ok e
  | none => .error .indexError

/-- The body of Python `parser(tokens, nested_level)`.  Arguments: fuel,
the remaining tokens, `nested_level`, `pos` (tokens consumed so far, the
second component of the return value), the operator stack and the operand
stack (both growing at the head).  Recursive `parser` calls restart with
empty stacks and `pos = 0`, exactly like `parser(tokens[pos:], ...)`. -/
def parserF : Nat → List Token → Nat → Nat → List Char → List Exp →
    Except PErr (Exp × Nat)
  | 0, _, _, _, _, _ => .error .fuel
  | f + 1, toks, nl, pos, ops, exps =>
    match toks with
    | [] =>
      -- end of the while loop: drain, then return `exp_stk[0], pos`
      match drainAll ops exps with
      | .error e => .error e
      | .ok exps' =>
        match stkBottom exps' with
        | .error e => .error e
        | .ok e => .ok (e, pos)
    | Token.IntToken v :: rest =>
      parserF f rest nl (pos + 1) ops (Exp.Int v :: exps)
    | Token.OpToken c :: rest =>
      if c = '=' then
        -- `case OpToken("=")`
        match exps with
        | [] => .error .unexpectedAssign
        | v0 :: es =>
          match v0 with
          | Exp.Var name =>
            match parserF f rest nl 0 [] [] with
            | .error e => .error e
            | .ok (val, k) =>
              match parserF f (rest.drop k) nl 0 [] [] with
              | .error e => .error e
              | .ok (body, k2) =>
                match drainAll ops (Exp.Assign name val body :: es) with
                | .error e => .error e
                | .ok exps' =>
                  match stkBottom exps' with
                  | .error e => .error e
                  | .ok e => .ok (e, pos + 1 + k + k2)
          | _ => .error .unexpectedAssign
      else
        -- `case OpToken(op)`
        match ops with
        | [] => parserF f rest nl (pos + 1) [c] exps
        | top :: ops' =>
          match op_precedence c with
          | none => .error .keyError
          | some pc =>
            match op_precedence top with
            | none => .error .keyError
            | some pt =>
              if pc ≤ pt then
                match handle_top (some c) (top :: ops') exps with
                | .error e => .error e
                | .ok (ops2, exps2) => parserF f rest nl (pos + 1) ops2 exps2
              else parserF f rest nl (pos + 1) (c :: top :: ops') exps
    | Token.ParToken true :: rest =>
      -- open parenthesis: recursive sub-parse at nested_level + 1
      match parserF f rest (nl + 1) 0 [] [] with
      | .error e => .error e
      | .ok (e, k) => parserF f (rest.drop k) nl (pos + 1 + k) ops (e :: exps)
    | Token.ParToken false :: _ =>
      if nl = 0 then .error .unbalanced
      else
        match drainAll ops exps with
        | .error e => .error e
        | .ok exps' =>
          match stkBottom exps' with
          | .error e => .error e
          | .ok e => .ok (e, pos + 1)
    | Token.VarToken name :: rest =>
      parserF f rest nl (pos + 1) ops (Exp.Var name :: exps)
    | Token.EndToken :: _ =>
      match drainAll ops exps with
      | .error e => .error e
      | .ok exps' =>
        match stkBottom exps' with
        | .error e => .error e
        | .ok e => .ok (e, pos + 1)

/-- Python `parser(tokens)` (tokens already reversed into source order by the
host).  The fuel bounds the depth of the call chain; `3 * length + 8` is
always enough (each chained call consumes a token, and each token causes at
most a bounded number of extra calls). -/
def parser (toks : List Token) : Except PErr (Exp × Nat) :=
  parserF (3 * toks.length + 8) toks 0 0 [] []

/-! ## The evaluator (`eval`) -/

/-- Runtime failures of `eval`: `RuntimeError("Unbound variable", name)` and
the `ZeroDivisionError` of `//`. -/
inductive RErr where
  | unboundVar (name : String)
  | zeroDiv
deriving DecidableEq, Repr

/-- `Env = dict[str, int]` as an association list; later bindings shadow
earlier ones exactly like the overwriting `env[name] = v`. -/
def Env := List (String × Int)
deriving DecidableEq, Repr

/-- `env[name]` lookup (`KeyError` ⟶ `none`). -/
def envLookup : Env → String → Option Int
  | [], _ => none
  | (k, v) :: rest, n => if k = n then some v else envLookup rest n

/-- `env[name] = v` on a fresh copy: add/overwrite one binding. -/
def envInsert (n : String) (v : Int) (env : Env) : Env := (n, v) :: env

/-- Python `eval(exp, env)`, with the state of the *caller's dictionary*
threaded explicitly: the result is the value together with the caller's
dictionary after the call.  The only writes in the source happen in the
`Assign` case, after `env = env.copy()` has rebound the local name to a fresh
copy, so the caller's dictionary is returned unchanged there; every other
case only reads.  `//` is floor division and raises on a zero divisor. -/
def evalS : Exp → Env → Except RErr (Int × Env)
  | Exp.Sum l r, env =>
    match evalS l env with
    | .error e => .error e
    | .ok (a, env1) =>
      match evalS r env1 with
      | .error e => .error e
      | .ok (b, env2) => .ok (a + b, env2)
  | Exp.Difference l r, env =>
    match evalS l env with
    | .error e => .error e
    | .ok (a, env1) =>
      match evalS r env1 with
      | .error e => .error e
      | .ok (b, env2) => .ok (a - b, env2)
  | Exp.Negation e, env =>
    match evalS e env with
    | .error e => .error e
    | .ok (a, env1) => .ok (-a, env1)
  | Exp.Product l r, env =>
    match evalS l env with
    | .error e => .error e
    | .ok (a, env1) =>
      match evalS r env1 with
      | .error e => .error e
      | .ok (b, env2) => .ok (a * b, env2)
  | Exp.Quotient l r, env =>
    match evalS l env with
    | .error e => .error e
    | .ok (a, env1) =>
      match evalS r env1 with
      | .error e => .error e
      | .ok (b, env2) => if b = 0 then .error .zeroDiv else .ok (Int.fdiv a b, env2)
  | Exp.Int v, env => .ok (v, env)
  | Exp.Assign name val body, env =>
    -- env = env.copy(); env[name] = eval(val, env); return eval(body, env)
    match evalS val env with
    | .error e => .error e
    | .ok (x, c1) =>
      match evalS body (envInsert name x c1) with
      | .error e => .error e
      | .ok (r, _) => .ok (r, env)
  | Exp.Var name, env =>
    match envLookup env name with
    | some v => .ok (v, env)
    | none => .error (.unboundVar name)

/-- The value computed by `eval(exp, env)`. -/
def eval (exp : Exp) (env : Env) : Except RErr Int :=
  (evalS exp env).map Prod.fst

/-! ## The pipeline of the host loop -/

inductive Err where
  | lexE (e : LexErr)
  | parseE (e : PErr)
  | evalE (e : RErr)
deriving DecidableEq, Repr

/-- `parser(lexer(user_code)[::-1])`. -/
def parseOf (code : List Char) : Except Err (Exp × Nat) :=
  match tokenize code with
  | .error e => .error (.lexE e)
  | .ok ts => (parser ts).mapError .parseE

/-- `eval(parser(lexer(user_code)[::-1])[0], env.copy())`: one line through
the full pipeline. -/
def runL (code : List Char) (env : Env) : Except Err Int :=
  match parseOf code with
  | .error e => .error e
  | .ok (ast, _) => (eval ast env).mapError .evalE

instance {ε α : Type} [DecidableEq ε] [DecidableEq α] : DecidableEq (Except ε α) := fun
  | .error a, .error b =>
    if h : a = b then .isTrue (by rw [h]) else .isFalse (by intro hh; cases hh; exact h rfl)
  | .error _, .ok _ => .isFalse (by intro h; cases h)
  | .ok _, .error _ => .isFalse (by intro h; cases h)
  | .ok a, .ok b =>
    if h : a = b then .isTrue (by rw [h]) else .isFalse (by intro hh; cases hh; exact h rfl)

/-! ## Specification-side definitions

These two definitions are *not* translations of the source; they are written
from the spec's words, to be compared with the source-derived definitions
above (refinement claims C1 and C9). -/

/-- Modelled from the spec (§4.1 "Output ordering", §9 "re-implement
iteratively, emitting tokens directly in source order"): one dispatch step of
the left-to-right tokenizer.  Tokens are emitted at the head, in source
order, under the same character rules and the same context-sensitive
unary-minus folding as the source.  It returns `none` exactly on the inputs
outside claim C9's scope: unknown characters (lexical error), a consumed
sign `-` ending the input (lexical error), and the unary-minus *desugaring*
cases (a sign before an identifier or a parenthesis), which the claim
explicitly excludes. -/
def ltrDispatch (recur : List Char → Option Token → Option (List Token))
    (c : Char) (cs : List Char) (prev : Option Token) ( isSub : Bool) :
    Option (List Token) :=
  if isDigitC c then
    let p := spanDigits cs
    let n : Nat := natOfDigits (c :: p.1)
    let tok := Token.IntToken (if isSub then (n : Int) else -(n : Int))
    match recur p.2 (some tok) with
    | none => none
    | some ts => some (tok :: ts)
  else if isAlphaC c || c = '_' then
    if isSub then
      let p := spanIdent cs
      let tok := Token.VarToken (String.mk (c :: p.1))
      match recur p.2 (some tok) with
      | none => none
      | some ts => some (tok :: ts)
    else none
  else if isOpC c then
    match recur cs (some (Token.OpToken c)) with
    | none => none
    | some ts => some (Token.OpToken c :: ts)
  else if c = '(' || c = ')' then
    if isSub then
      let b := c = '('
      match recur cs (some (Token.ParToken b)) with
      | none => none
      | some ts => some (Token.ParToken b :: ts)
    else none
  else if isWsC c then
    recur cs prev
  else if c = ';' then
    match recur cs (some Token.EndToken) with
    | none => none
    | some ts => some (Token.EndToken :: ts)
  else none

/-- Modelled from the spec: one step of the left-to-right tokenizer (empty
check, unary-minus consumption, dispatch). -/
def ltrStep (recur : List Char → Option Token → Option (List Token)) :
    List Char → Option Token → Option (List Token)
  | [], _ => some []
  | c :: cs, prev =>
    if c = '-' && signElig prev then
      match cs with
      | [] => none
      | c' :: cs' => ltrDispatch recur c' cs' prev false
    else ltrDispatch recur c cs prev true

/-- Modelled from the spec: fuel-indexed left-to-right tokenizer. -/
def ltrF : Nat → List Char → Option Token → Option (List Token)
  | 0, _, _ => none
  | f + 1, code, prev => ltrStep (ltrF f) code prev

/-- Modelled from the spec: the left-to-right, in-source-order tokenization
of an input, defined on inputs that tokenize without unary-minus desugaring. -/
def ltrTokenize (code : List Char) : Option (List Token) :=
  ltrF (code.length + 1) code none

/-- Modelled from the spec (claim C1): a recursive-descent evaluator for
arithmetic-only strings under standard precedence (`*`, `/` before `+`, `-`),
left associativity and floor division.  `mode 0` parses an additive
expression, `mode 1` folds a left-associative chain of `+`/`-` onto `acc`,
`mode 2` parses a multiplicative term, `mode 3` folds a left-associative
chain of `*`/`/` onto `acc`, `mode 4` parses an atom (integer literal or
parenthesized expression); whitespace may appear between tokens; a division
whose divisor is zero has no value. -/
def specF : Nat → Nat → Int → List Char → Option (Int × List Char)
  | 0, _, _, _ => none
  | f + 1, 0, _, cs =>
    match specF f 2 0 cs with
    | some (v, r) => specF f 1 v r
    | none => none
  | f + 1, 1, acc, cs =>
    match cs.dropWhile isWsC with
    | c :: rest =>
      if c = '+' then
        match specF f 2 0 rest with
        | some (v, r) => specF f 1 (acc + v) r
        | none => none
      else if c = '-' then
        match specF f 2 0 rest with
        | some (v, r) => specF f 1 (acc - v) r
        | none => none
      else some (acc, cs)
    | [] => some (acc, cs)
  | f + 1, 2, _, cs =>
    match specF f 4 0 cs with
    | some (v, r) => specF f 3 v r
    | none => none
  | f + 1, 3, acc, cs =>
    match cs.dropWhile isWsC with
    | c :: rest =>
      if c = '*' then
        match specF f 4 0 rest with
        | some (v, r) => specF f 3 (acc * v) r
        | none => none
      else if c = '/' then
        match specF f 4 0 rest with
        | some (v, r) => if v = 0 then none else specF f 3 (Int.fdiv acc v) r
        | none => none
      else some (acc, cs)
    | [] => some (acc, cs)
  | f + 1, _ + 4, _, cs =>
    match cs.dropWhile isWsC with
    | '(' :: rest =>
      match specF f 0 0 rest with
      | some (v, r) =>
        match r.dropWhile isWsC with
        | ')' :: r' => some (v, r')
        | _ => none
      | none => none
    | c :: rest =>
      if isDigitC c then
        let p := spanDigits rest
        some ((natOfDigits (c :: p.1) : Int), p.2)
      else none
    | [] => none

/-- Modelled from the spec: the standard-precedence, left-associative,
floor-division value of an arithmetic-only string (if it is well-formed and
divides by zero nowhere). -/
def specEval (cs : List Char) : Option Int :=
  match specF (4 * cs.length + 8) 0 0 cs with
  | some (v, r) => if r.dropWhile isWsC = [] then some v else none
  | none => none

/-! ## Concrete inputs used by the claims -/

def nmX : String := "x"
def nmY : String := "y"
def prog1 : List Char := "x=5;x".toList
def prog2 : List Char := "x=5;y=(x=3;x+2)+x;y".toList
def progAssoc : List Char := "1-2*3+4".toList
def progOpen : List Char := "(1+2".toList
def progClose : List Char := ")".toList
def progOnePlus : List Char := "1+".toList
def progOneTwo : List Char := "1 2".toList
def progDiv0 : List Char := "1/0".toList
def negX : List Char := "-x".toList
def negOneX : List Char := "-1*x".toList
def negParen : List Char := "-(1+2)".toList
def negOneParen : List Char := "-1*(1+2)".toList
def progMix : List Char := "1 - 2*(x_1/3);".toList

/-! # Theorems -/

/-! ## Basic lemmas about the helpers -/

theorem spanDigits_snd_length_le : ∀ l : List Char, (spanDigits l).2.length ≤ l.length := by
  intro l
  induction l with
  | nil => simp [spanDigits]
  | cons c cs ih =>
    simp only [spanDigits]
    by_cases h : isDigitC c
    · simp only [h, if_pos]
      exact Nat.le_succ_of_le ih
    · simp [h]

theorem spanIdent_snd_length_le : ∀ l : List Char, (spanIdent l).2.length ≤ l.length := by
  intro l
  induction l with
  | nil => simp [spanIdent]
  | cons c cs ih =>
    simp only [spanIdent]
    by_cases h : isIdentC c
    · simp only [h, if_pos]
      exact Nat.le_succ_of_le ih
    · simp [h]

/-- An identifier-start character is not a digit (the lexer's branches are
mutually exclusive on such characters). -/
theorem identC_not_digit (c : Char) (h : (isAlphaC c || c = '_') = true) :
    isDigitC c = false := by
  rw [Bool.eq_false_iff]
  intro hd
  simp only [isAlphaC, isDigitC, Bool.or_eq_true, Bool.and_eq_true,
    decide_eq_true_eq] at h hd
  have e0 : '0'.toNat = 48 := rfl
  have e9 : '9'.toNat = 57 := rfl
  have ea : 'a'.toNat = 97 := rfl
  have ez : 'z'.toNat = 122 := rfl
  have eA : 'A'.toNat = 65 := rfl
  have eZ : 'Z'.toNat = 90 := rfl
  rcases h with (⟨h1, h2⟩ | ⟨h1, h2⟩) | h1
  · omega
  · omega
  · rw [h1] at hd
    have : ('_').toNat = 95 := rfl
    omega

/-! ## Fuel irrelevance for the lexer -/

theorem lexDispatch_congr (r1 r2 : List Char → Option Token → Except LexErr (List Token))
    (c : Char) (cs : List Char) (prev : Option Token) (b : Bool)
    (h : ∀ code' prev', code'.length ≤ cs.length → r1 code' prev' = r2 code' prev') :
    lexDispatch r1 c cs prev b = lexDispatch r2 c cs prev b := by
  simp only [lexDispatch]
  split_ifs <;>
    first
    | rfl
    | rw [h _ _ (spanDigits_snd_length_le cs)]
    | rw [h _ _ (spanIdent_snd_length_le cs)]
    | rw [h _ _ (Nat.le_refl _)]

theorem lexF_congr : ∀ f g : Nat, ∀ code : List Char, ∀ prev : Option Token,
    code.length < f → code.length < g → lexF f code prev = lexF g code prev := by
  intro f
  induction f with
  | zero => intro g code prev hf; exact absurd hf (Nat.not_lt_zero _)
  | succ f ih =>
    intro g code prev hf hg
    cases g with
    | zero => exact absurd hg (Nat.not_lt_zero _)
    | succ g' =>
      show lexStep (lexF f) code prev = lexStep (lexF g') code prev
      cases code with
      | nil => rfl
      | cons c cs =>
        have hf' : cs.length < f := by simpa using Nat.lt_of_succ_lt_succ hf
        have hg' : cs.length < g' := by simpa using Nat.lt_of_succ_lt_succ hg
        have hrec : ∀ code' prev', code'.length ≤ cs.length →
            lexF f code' prev' = lexF g' code' prev' := by
          intro code' prev' hle
          exact ih g' code' prev' (Nat.lt_of_le_of_lt hle hf') (Nat.lt_of_le_of_lt hle hg')
        simp only [lexStep]
        split_ifs with hm
        · cases cs with
          | nil => rfl
          | cons c' cs' =>
            exact lexDispatch_congr _ _ c' cs' prev false
              (fun code' prev' hle => hrec code' prev'
                (le_trans hle (by simp)))
        · exact lexDispatch_congr _ _ c cs prev true hrec

/-- With any sufficient fuel, `lexF` computes `lexer`. -/
theorem lexF_run (f : Nat) (code : List Char) (prev : Option Token)
    (h : code.length < f) : lexF f code prev = lexer code prev :=
  lexF_congr f (code.length + 1) code prev h (Nat.lt_succ_self _)

/-- Unfolding `lexer` by one step. -/
theorem lexer_cons (c : Char) (cs : List Char) (prev : Option Token) :
    lexer (c :: cs) prev = lexStep (lexF (cs.length + 1)) (c :: cs) prev := rfl

/-- An eligible `-` is consumed and dispatch continues on the next character
with `is_subtraction = False`. -/
theorem lexStep_minus (recur : List Char → Option Token → Except LexErr (List Token))
    (c : Char) (cs : List Char) (prev : Option Token) (hs : signElig prev = true) :
    lexStep recur ('-' :: c :: cs) prev = lexDispatch recur c cs prev false := by
  simp [lexStep, hs]

/-- A non-eligible character (or a non-`-`) goes straight to dispatch with
`is_subtraction = True`. -/
theorem lexStep_plain (recur : List Char → Option Token → Except LexErr (List Token))
    (c : Char) (cs : List Char) (prev : Option Token)
    (hs : (c = '-' && signElig prev) = false) :
    lexStep recur (c :: cs) prev = lexDispatch recur c cs prev true := by
  simp [lexStep, hs]

/-- Whitespace is skipped with `prev` unchanged
(`lexer(code[1:], prev)` in the whitespace branch). -/
theorem lexer_ws_skip (c : Char) (cs : List Char) (prev : Option Token)
    (h : isWsC c = true) : lexer (c :: cs) prev = lexer cs prev := by
  have h' : ((c = ' ' ∨ c = '\t') ∨ c = '\n') ∨ c = '\r' := by
    simpa [isWsC] using h
  rcases h' with ((rfl | rfl) | rfl) | rfl <;> rfl

/-! ## The evaluator never mutates the caller's dictionary -/

/-- Frame property of `eval`: the caller-visible state of the dictionary
after any evaluation is the dictionary passed in. -/
theorem evalS_frame (e : Exp) : ∀ (env : Env) (v : Int) (env' : Env),
    evalS e env = .ok (v, env') → env' = env := by
  induction e with
  | Int val =>
    intro env v env' h
    simp only [evalS, Except.ok.injEq, Prod.mk.injEq] at h
    exact h.2.symm
  | Var name =>
    intro env v env' h
    simp only [evalS] at h
    split at h
    · simp only [Except.ok.injEq, Prod.mk.injEq] at h
      exact h.2.symm
    · cases h
  | Assign name val body ihv ihb =>
    intro env v env' h
    simp only [evalS] at h
    split at h
    · cases h
    · split at h
      · cases h
      · simp only [Except.ok.injEq, Prod.mk.injEq] at h
        exact h.2.symm
  | Negation e ihe =>
    intro env v env' h
    simp only [evalS] at h
    split at h
    · cases h
    · rename_i p heq
      simp only [Except.ok.injEq, Prod.mk.injEq] at h
      exact h.2.symm.trans (ihe _ _ _ heq)
  | Sum l r ihl ihr =>
    intro env v env' h
    simp only [evalS] at h
    split at h
    · cases h
    · rename_i p heql
      split at h
      · cases h
      · rename_i q heqr
        simp only [Except.ok.injEq, Prod.mk.injEq] at h
        exact h.2.symm.trans ((ihr _ _ _ heqr).trans (ihl _ _ _ heql))
  | Difference l r ihl ihr =>
    intro env v env' h
    simp only [evalS] at h
    split at h
    · cases h
    · rename_i p heql
      split at h
      · cases h
      · rename_i q heqr
        simp only [Except.ok.injEq, Prod.mk.injEq] at h
        exact h.2.symm.trans ((ihr _ _ _ heqr).trans (ihl _ _ _ heql))
  | Product l r ihl ihr =>
    intro env v env' h
    simp only [evalS] at h
    split at h
    · cases h
    · rename_i p heql
      split at h
      · cases h
      · rename_i q heqr
        simp only [Except.ok.injEq, Prod.mk.injEq] at h
        exact h.2.symm.trans ((ihr _ _ _ heqr).trans (ihl _ _ _ heql))
  | Quotient l r ihl ihr =>
    intro env v env' h
    simp only [evalS] at h
    split at h
    · cases h
    · rename_i p heql
      split at h
      · cases h
      · rename_i q heqr
        split at h
        · cases h
        · simp only [Except.ok.injEq, Prod.mk.injEq] at h
          exact h.2.symm.trans ((ihr _ _ _ heqr).trans (ihl _ _ _ heql))

/-! ## The left-to-right tokenizer refines the lexer -/

/-- One dispatch step of the spec-side tokenizer agrees with one dispatch
step of the source lexer, up to reversal. -/
theorem ltrDispatch_ref (f : Nat)
    (ih : ∀ code prev ts, ltrF f code prev = some ts → lexF f code prev = .ok ts.reverse)
    (c : Char) (cs : List Char) (prev : Option Token) (b : Bool) (ts : List Token)
    (h : ltrDispatch (ltrF f) c cs prev b = some ts) :
    lexDispatch (lexF f) c cs prev b = .ok ts.reverse := by
  simp only [ltrDispatch] at h
  simp only [lexDispatch]
  split_ifs at h ⊢ <;>
    first
    | exact Option.noConfusion h
    | exact ih _ _ _ h
    | · cases hres : ltrF f _ _ <;> rw [hres] at h
        · exact Option.noConfusion h
        · simp only [Option.some.injEq] at h
          subst h
          rw [ih _ _ _ hres]
          simp

/-- The spec-side left-to-right tokenizer refines the source lexer: whenever
it is defined, the lexer succeeds with exactly its reversal. -/
theorem ltrF_lexF : ∀ (f : Nat) (code : List Char) (prev : Option Token) (ts : List Token),
    ltrF f code prev = some ts → lexF f code prev = .ok ts.reverse := by
  intro f
  induction f with
  | zero => intro code prev ts h; exact Option.noConfusion h
  | succ f ih =>
    intro code prev ts h
    show lexStep (lexF f) code prev = _
    have h' : ltrStep (ltrF f) code prev = some ts := h
    cases code with
    | nil =>
      simp only [ltrStep, Option.some.injEq] at h'
      subst h'
      rfl
    | cons c cs =>
      simp only [ltrStep] at h'
      simp only [lexStep]
      split_ifs at h' ⊢ with hm
      · cases cs with
        | nil => exact Option.noConfusion h'
        | cons c' cs' => exact ltrDispatch_ref f ih c' cs' prev false ts h'
      · exact ltrDispatch_ref f ih c cs prev true ts h'

/-! ## The claims -/

/-- C1.  The claim asserts that for every well-formed arithmetic-only string
the pipeline returns the string's value under standard precedence and
left-associativity with floor division.  The code violates left-associativity:
`handle_top(op)` pops only a single pending operator when an operator of
lower-or-equal precedence arrives, so after a higher-precedence run two
pending additive operators remain stacked and are combined right-to-left by
the final drain.  On `1-2*3+4` the standard left-associative value is
`(1-2*3)+4 = -1` (first conjunct, via the spec-side evaluator), but the
pipeline parses `1-(2*3+4)` and returns `-9` (second conjunct). -/
theorem claim_C1 : specEval progAssoc = some (-1) ∧ runL progAssoc [] = .ok (-9) :=
  ⟨by decide, by decide⟩

/-- C2.  A `-` immediately followed by a digit is folded into a single
negative integer literal exactly when the previous token is absent (start of
input), an operator, an open parenthesis, or a terminator (`signElig`); in
every other position (after an integer literal, an identifier, or a close
parenthesis) it is emitted as the binary-subtraction operator token. -/
theorem claim_C2 (prev : Option Token) (c : Char) (rest : List Char)
    (hd : isDigitC c = true) :
    (signElig prev = true →
      lexer ('-' :: c :: rest) prev =
        (lexer (spanDigits rest).2
            (some (Token.IntToken (-(natOfDigits (c :: (spanDigits rest).1) : Int))))).map
          (· ++ [Token.IntToken (-(natOfDigits (c :: (spanDigits rest).1) : Int))]))
    ∧ (signElig prev = false →
      lexer ('-' :: c :: rest) prev =
        (lexer (c :: rest) (some (Token.OpToken '-'))).map (· ++ [Token.OpToken '-'])) := by
  constructor
  · intro hs
    rw [lexer_cons, lexStep_minus _ _ _ _ hs]
    simp only [lexDispatch, hd, if_true]
    have hb : (spanDigits rest).2.length < (c :: rest).length + 1 :=
      Nat.lt_of_le_of_lt (spanDigits_snd_length_le rest) (by simp; omega)
    rw [lexF_run _ _ _ hb]
    cases hres : lexer (spanDigits rest).2
        (some (Token.IntToken (-(natOfDigits (c :: (spanDigits rest).1) : Int)))) <;>
      simp [hres, Except.map]
  · intro hs
    rw [lexer_cons, lexStep_plain _ _ _ _ (by simp [hs])]
    show (match lexer (c :: rest) (some (Token.OpToken '-')) with
          | Except.error e => Except.error e
          | Except.ok ts => Except.ok (ts ++ [Token.OpToken '-'])) = _
    cases hres : lexer (c :: rest) (some (Token.OpToken '-')) <;> simp [Except.map]

/-- C2 witness: `-5` at the start of input is one literal token valued `-5`;
after an integer literal, `-2` is the subtraction operator then the literal
`2` (lists in the lexer's reversed order). -/
theorem claim_C2_witness :
    lexer ('-' :: '5' :: []) none = .ok [Token.IntToken (-5)]
    ∧ lexer ('-' :: '2' :: []) (some (Token.IntToken 1)) =
        .ok [Token.IntToken 2, Token.OpToken '-'] := by
  constructor
  · have h := (claim_C2 none '5' [] (by decide)).1 (by decide)
    rw [h]; rfl
  · have h := (claim_C2 (some (Token.IntToken 1)) '2' [] (by decide)).2 (by decide)
    rw [h]; rfl

/-- C3 counterexample: parsing the token sequence of `(1+2` does *not* yield
a syntax error — it succeeds, returning the expression `1+2` with all four
tokens consumed (the recursive sub-parse returns at end of input without
requiring the matching close parenthesis; the check is a commented-out
assert in the source). -/
theorem claim_C3_counterexample :
    parseOf progOpen = .ok (Exp.Sum (Exp.Int 1) (Exp.Int 2), 4) := by decide

/-- C3 (amended).  Parsing `)` yields the unbalanced-parentheses syntax
error, and in general a close parenthesis first seen at the outermost nesting
level is that error; but parsing `(1+2` succeeds, returning `1+2` with all
four tokens consumed, because a recursive parse entered at an open
parenthesis returns at end of input without requiring the close parenthesis. -/
theorem claim_C3 :
    parseOf progClose = .error (.parseE .unbalanced)
    ∧ (∀ rest : List Token, parser (Token.ParToken false :: rest) = .error .unbalanced)
    ∧ parseOf progOpen = .ok (Exp.Sum (Exp.Int 1) (Exp.Int 2), 4) := by
  refine ⟨by decide, fun rest => ?_, by decide⟩
  rfl

/-- C4.  Evaluating a `Quotient` node whose right operand evaluates to zero
yields the defined division-by-zero error value (`ZeroDivisionError`), never
a number; on the program `1/0` the whole pipeline reports that runtime
error. -/
theorem claim_C4 :
    (∀ (l r : Exp) (env : Env) (vl : Int),
      eval l env = .ok vl → eval r env = .ok 0 →
      eval (Exp.Quotient l r) env = .error .zeroDiv)
    ∧ runL progDiv0 [] = .error (.evalE .zeroDiv) := by
  constructor
  · intro l r env vl hl hr
    simp only [eval] at hl hr ⊢
    cases hsl : evalS l env with
    | error e => simp [hsl, Except.map] at hl
    | ok p =>
      cases hsr : evalS r env with
      | error e => simp [hsr, Except.map] at hr
      | ok q =>
        obtain ⟨a, env1⟩ := p
        obtain ⟨b, env2⟩ := q
        have hb : b = 0 := by simpa [hsr, Except.map] using hr
        have henv1 : env1 = env := evalS_frame l env a env1 hsl
        subst henv1
        subst hb
        simp [evalS, hsl, hsr, Except.map]
  · decide

/-- C4 witness: the theorem applied to the quotient `1/0` itself. -/
theorem claim_C4_witness :
    eval (Exp.Int 1) [] = .ok 1 ∧ eval (Exp.Int 0) [] = .ok 0
    ∧ eval (Exp.Quotient (Exp.Int 1) (Exp.Int 0)) [] = .error .zeroDiv :=
  ⟨by decide, by decide,
    claim_C4.1 (Exp.Int 1) (Exp.Int 0) [] 1 (by decide) (by decide)⟩

/-- C5 counterexample: on the token sequence of `1+` (an operator with a
missing operand) the parser does not fail with a syntax error — it fails
with the `IndexError` of popping an operand off an empty stack. -/
theorem claim_C5_counterexample :
    parseOf progOnePlus = .error (.parseE .indexError) := by decide

/-- C5 (amended).  Malformed arrangements are not reported as syntax errors:
an operator with a missing operand (`1+`) and the empty token sequence both
fail with an uncaught `IndexError` (an empty-stack pop / index), and
consecutive operands with no operator (`1 2`) are not an error at all — the
parse succeeds and returns the first operand.  The generic
`SyntaxError("Syntax Error")` branch is unreachable for lexer-produced
tokens. -/
theorem claim_C5 :
    parseOf progOnePlus = .error (.parseE .indexError)
    ∧ parser [] = .error .indexError
    ∧ parseOf progOneTwo = .ok (Exp.Int 1, 2) :=
  ⟨by decide, by decide, by decide⟩

/-- C6.  Evaluating an `Assign` never mutates the caller's environment: the
caller-visible dictionary after *any* evaluation is the one passed in (first
conjunct), and the `Assign` case evaluates the value under the current
environment, uses the extended environment only for the body, and hands the
caller its own environment back, so the new binding is invisible once the
`Assign` returns (second conjunct). -/
theorem claim_C6 :
    (∀ (e : Exp) (env : Env) (v : Int) (env' : Env),
      evalS e env = .ok (v, env') → env' = env)
    ∧ (∀ (name : String) (val body : Exp) (env : Env),
      evalS (Exp.Assign name val body) env =
        match evalS val env with
        | .error er => .error er
        | .ok (x, c1) =>
          match evalS body (envInsert name x c1) with
          | .error er => .error er
          | .ok (r, _) => .ok (r, env)) :=
  ⟨fun e => evalS_frame e, fun _ _ _ _ => rfl⟩

/-- C6 witness: evaluating `x = 1; x` against the dictionary `{y: 2}` returns
`1` and hands back `{y: 2}` unchanged. -/
theorem claim_C6_witness :
    evalS (Exp.Assign nmX (Exp.Int 1) (Exp.Var nmX)) [(nmY, 2)] = .ok (1, [(nmY, 2)])
    ∧ ([(nmY, 2)] : Env) = [(nmY, 2)] :=
  ⟨by decide,
    claim_C6.1 (Exp.Assign nmX (Exp.Int 1) (Exp.Var nmX)) [(nmY, 2)] 1 [(nmY, 2)] (by decide)⟩

/-- C7.  `x=5;x` evaluates to `5`, and `x=5;y=(x=3;x+2)+x;y` evaluates to
`10` under the empty environment: the inner `x=3` shadows only within its own
body. -/
theorem claim_C7 : runL prog1 [] = .ok 5 ∧ runL prog2 [] = .ok 10 :=
  ⟨by decide, by decide⟩

/-- C8.  Unary-minus desugaring: `-x` and `-1*x` run identically under every
environment; `-(1+2)` and `-1*(1+2)` both evaluate to `-3`; and in general a
sign-eligible `-` before an identifier or an open parenthesis is desugared by
the tokenizer into a stream that reads, in source order, as
`(-1) * <operand>` (the last two conjuncts, stated on the lexer's reversed
output: the appended tokens come first after reversal). -/
theorem claim_C8 :
    (∀ env : Env, runL negX env = runL negOneX env)
    ∧ runL negParen [] = .ok (-3)
    ∧ runL negOneParen [] = .ok (-3)
    ∧ (∀ (prev : Option Token) (c : Char) (rest : List Char),
        signElig prev = true → (isAlphaC c || c = '_') = true →
        lexer ('-' :: c :: rest) prev =
          (lexer (spanIdent rest).2
              (some (Token.VarToken (String.mk (c :: (spanIdent rest).1))))).map
            (· ++ [Token.VarToken (String.mk (c :: (spanIdent rest).1)),
                   Token.OpToken '*', Token.IntToken (-1)]))
    ∧ (∀ (prev : Option Token) (rest : List Char),
        signElig prev = true →
        lexer ('-' :: '(' :: rest) prev =
          (lexer rest (some (Token.ParToken true))).map
            (· ++ [Token.ParToken true, Token.OpToken '*', Token.IntToken (-1)])) := by
  refine ⟨?_, by decide, by decide, ?_, ?_⟩
  · intro env
    have hp : parseOf negX = parseOf negOneX := by decide
    simp only [runL, hp]
  · intro prev c rest hs ha
    rw [lexer_cons, lexStep_minus _ _ _ _ hs]
    simp only [lexDispatch, identC_not_digit c ha, ha, if_true, Bool.false_eq_true, if_false]
    have hb : (spanIdent rest).2.length < (c :: rest).length + 1 :=
      Nat.lt_of_le_of_lt (spanIdent_snd_length_le rest) (by simp; omega)
    rw [lexF_run _ _ _ hb]
    cases hres : lexer (spanIdent rest).2
        (some (Token.VarToken (String.mk (c :: (spanIdent rest).1)))) <;>
      simp [Except.map]
  · intro prev rest hs
    rw [lexer_cons, lexStep_minus _ _ _ _ hs]
    show (match lexF (rest.length + 1 + 1) rest (some (Token.ParToken true)) with
          | Except.error e => Except.error e
          | Except.ok ts => Except.ok ((ts ++ [Token.ParToken true]) ++
              [Token.OpToken '*', Token.IntToken (-1)])) = _
    rw [lexF_run _ _ _ (by omega)]
    cases hres : lexer rest (some (Token.ParToken true)) <;> simp [Except.map]

/-- C8 witness: the desugaring equations applied to `-x` and to `-(1+2)`
(reversed lexer output: `x * -1` reversed is `-1 * x`). -/
theorem claim_C8_witness :
    lexer ('-' :: 'x' :: []) none =
      .ok [Token.VarToken "x", Token.OpToken '*', Token.IntToken (-1)]
    ∧ lexer ('-' :: '(' :: '1' :: '+' :: '2' :: ')' :: []) none =
      .ok [Token.ParToken false, Token.IntToken 2, Token.OpToken '+', Token.IntToken 1,
           Token.ParToken true, Token.OpToken '*', Token.IntToken (-1)] := by
  constructor
  · have h := claim_C8.2.2.2.1 none 'x' [] (by decide) (by decide)
    rw [h]; rfl
  · have h := claim_C8.2.2.2.2 none ('1' :: '+' :: '2' :: ')' :: []) (by decide)
    rw [h]; rfl

/-- C9.  Whenever the spec-side iterative left-to-right tokenization is
defined (the input tokenizes and needs no unary-minus desugaring), the
tokenizer of the pipeline — the lexer's output reversed by the host — returns
exactly that source-order token sequence: the internal recursive/reverse
construction is not observable. -/
theorem claim_C9 (code : List Char) (ts : List Token)
    (h : ltrTokenize code = some ts) : tokenize code = .ok ts := by
  have h2 := ltrF_lexF (code.length + 1) code none ts h
  show (lexF (code.length + 1) code none).map List.reverse = _
  rw [h2]
  simp [Except.map]

/-- C9 witness: on `1 - 2*(x_1/3);` the in-order tokenization is defined and
the pipeline's tokenizer returns exactly it. -/
theorem claim_C9_witness :
    ltrTokenize progMix =
      some [Token.IntToken 1, Token.OpToken '-', Token.IntToken 2, Token.OpToken '*',
        Token.ParToken true, Token.VarToken "x_1", Token.OpToken '/', Token.IntToken 3,
        Token.ParToken false, Token.EndToken]
    ∧ tokenize progMix =
      .ok [Token.IntToken 1, Token.OpToken '-', Token.IntToken 2, Token.OpToken '*',
        Token.ParToken true, Token.VarToken "x_1", Token.OpToken '/', Token.IntToken 3,
        Token.ParToken false, Token.EndToken] :=
  ⟨by decide, claim_C9 _ _ (by decide)⟩

/-- C10.  When a `-` follows an integer literal, an identifier, or a close
parenthesis (`signElig prev = false`) with only whitespace in between, the
whitespace is skipped with `prev` unchanged, so the decision is made on the
token category from before the whitespace and the `-` is emitted as the
binary-subtraction operator exactly as if the whitespace were absent. -/
theorem claim_C10 (ws rest : List Char) (prev : Token)
    (hws : ∀ c ∈ ws, isWsC c = true)
    (hprev : signElig (some prev) = false) :
    lexer (ws ++ '-' :: rest) (some prev) = lexer ('-' :: rest) (some prev)
    ∧ lexer ('-' :: rest) (some prev) =
        (lexer rest (some (Token.OpToken '-'))).map (· ++ [Token.OpToken '-']) := by
  constructor
  · induction ws with
    | nil => rfl
    | cons w ws' ih =>
      rw [List.cons_append, lexer_ws_skip w _ _ (hws w (by simp))]
      exact ih (fun c hc => hws c (by simp [hc]))
  · rw [lexer_cons, lexStep_plain _ _ _ _ (by simp [hprev])]
    show (match lexer rest (some (Token.OpToken '-')) with
          | Except.error e => Except.error e
          | Except.ok ts => Except.ok (ts ++ [Token.OpToken '-'])) = _
    cases hres : lexer rest (some (Token.OpToken '-')) <;> simp [Except.map]

/-- C10 witness: `1 - 2`-style context — after the literal `1`, the input
` - 2` lexes with a binary minus, exactly as `-2` would after `1`. -/
theorem claim_C10_witness :
    lexer (([' '] ++ '-' :: ' ' :: '2' :: []) : List Char) (some (Token.IntToken 1)) =
      .ok [Token.IntToken 2, Token.OpToken '-'] := by
  have h := claim_C10 [' '] (' ' :: '2' :: []) (Token.IntToken 1) (by decide) (by decide)
  rw [h.1, h.2]
  rfl

